import Mathlib

/-!
Verification development for a Telegram mini-app init-data validator.

The repository is a single Python module exposing `validate_init_data`
together with two private helpers `_secret_key` and `_hmac_hash`.  This file
gives a shallow embedding of that module: strings stay Lean `String`s, byte
strings become `List Nat` (each entry below 256), the Python standard library
pieces the module calls (`hashlib.sha256`, `hmac`, `urllib.parse.parse_qsl`,
`int(...)`) are modelled as executable Lean functions following their
documented behaviour, and the wall clock read `int(time.time())` becomes an
explicit `current_time` argument.  A Python function that can raise becomes a
function into `VResult`, which carries either the returned boolean or the
raised exception.
-/

set_option maxRecDepth 20000

namespace TmaValidation

/-! ## Bytes and UTF-8 -/

/-- UTF-8 encoding of one character, as a list of byte values.
Standard 1-4 byte encoding of the scalar value. -/
def encodeChar (c : Char) : List Nat :=
  let n := c.toNat
  if n < 128 then [n]
  else if n < 2048 then [192 + n / 64, 128 + n % 64]
  else if n < 65536 then [224 + n / 4096, 128 + n / 64 % 64, 128 + n % 64]
  else [240 + n / 262144, 128 + n / 4096 % 64, 128 + n / 64 % 64, 128 + n % 64]

/-- UTF-8 encoding of a string: models Python `str.encode("utf-8")`. -/
def utf8Bytes (s : String) : List Nat :=
  s.data.flatMap encodeChar

/-! ## SHA-256 (FIPS 180-4), executable model of `hashlib.sha256` -/

/-- The 2^32 modulus for 32-bit words. -/
def M32 : Nat := 4294967296

/-- Right rotation of a 32-bit word. -/
def rotr (k x : Nat) : Nat :=
  (x >>> k) ||| ((x <<< (32 - k)) % M32)

/-- SHA-256 small sigma 0. -/
def ssig0 (x : Nat) : Nat := rotr 7 x ^^^ rotr 18 x ^^^ (x >>> 3)

/-- SHA-256 small sigma 1. -/
def ssig1 (x : Nat) : Nat := rotr 17 x ^^^ rotr 19 x ^^^ (x >>> 10)

/-- SHA-256 big sigma 0. -/
def bsig0 (x : Nat) : Nat := rotr 2 x ^^^ rotr 13 x ^^^ rotr 22 x

/-- SHA-256 big sigma 1. -/
def bsig1 (x : Nat) : Nat := rotr 6 x ^^^ rotr 11 x ^^^ rotr 25 x

/-- Bitwise complement of a 32-bit word. -/
def not32 (x : Nat) : Nat := x ^^^ (M32 - 1)

/-- SHA-256 choice function. -/
def chF (x y z : Nat) : Nat := (x &&& y) ^^^ (not32 x &&& z)

/-- SHA-256 majority function. -/
def majF (x y z : Nat) : Nat := (x &&& y) ^^^ (x &&& z) ^^^ (y &&& z)

/-- The 64 SHA-256 round constants (FIPS 180-4, written in decimal). -/
def K256 : List Nat :=
  [1116352408, 1899447441, 3049323471, 3921009573, 961987163, 1508970993,
   2453635748, 2870763221, 3624381080, 310598401, 607225278, 1426881987,
   1925078388, 2162078206, 2614888103, 3248222580, 3835390401, 4022224774,
   264347078, 604807628, 770255983, 1249150122, 1555081692, 1996064986,
   2554220882, 2821834349, 2952996808, 3210313671, 3336571891, 3584528711,
   113926993, 338241895, 666307205, 773529912, 1294757372, 1396182291,
   1695183700, 1986661051, 2177026350, 2456956037, 2730485921, 2820302411,
   3259730800, 3345764771, 3516065817, 3600352804, 4094571909, 275423344,
   430227734, 506948616, 659060556, 883997877, 958139571, 1322822218,
   1537002063, 1747873779, 1955562222, 2024104815, 2227730452, 2361852424,
   2428436474, 2756734187, 3204031479, 3329325298]

/-- The SHA-256 working state: eight 32-bit words. -/
structure Hash8 where
  a : Nat
  b : Nat
  c : Nat
  d : Nat
  e : Nat
  f : Nat
  g : Nat
  h : Nat
deriving DecidableEq

/-- The SHA-256 initial hash value (FIPS 180-4, written in decimal). -/
def h0init : Hash8 :=
  ⟨1779033703, 3144134277, 1013904242, 2773480762,
   1359893119, 2600822924, 528734635, 1541459225⟩

/-- Big-endian 8-byte encoding of the message bit length. -/
def lenBytes64 (n : Nat) : List Nat :=
  [n / 72057594037927936 % 256, n / 281474976710656 % 256,
   n / 1099511627776 % 256, n / 4294967296 % 256,
   n / 16777216 % 256, n / 65536 % 256, n / 256 % 256, n % 256]

/-- SHA-256 padding: append 0x80, zero bytes to 56 mod 64, then the 64-bit
big-endian bit length. -/
def padMessage (msg : List Nat) : List Nat :=
  let L := msg.length
  let zeros := (119 - L % 64) % 64
  msg ++ 128 :: List.replicate zeros 0 ++ lenBytes64 (8 * L)

/-- Fuel-driven worker for `toBlocks`; the fuel is an upper bound on the
number of blocks, so it never runs out when initialised with the length. -/
def toBlocksF : Nat → List Nat → List (List Nat)
  | _, [] => []
  | 0, _ :: _ => []
  | fuel + 1, b :: rest => List.take 64 (b :: rest) :: toBlocksF fuel (List.drop 63 rest)

/-- Split a byte list into 64-byte blocks. -/
def toBlocks (l : List Nat) : List (List Nat) :=
  toBlocksF l.length l

/-- Combine big-endian groups of four bytes into 32-bit words. -/
def toWords : List Nat → List Nat
  | b0 :: b1 :: b2 :: b3 :: rest =>
      (b0 * 16777216 + b1 * 65536 + b2 * 256 + b3) :: toWords rest
  | _ => []

/-- Extend the 16 message words to the 64-entry SHA-256 message schedule. -/
def extendSchedule (w16 : List Nat) : List Nat :=
  (List.range 48).foldl
    (fun w _ =>
      let t := w.length
      let g := fun i => w.getD i 0
      w ++ [(ssig1 (g (t - 2)) + g (t - 7) + ssig0 (g (t - 15)) + g (t - 16)) % M32])
    w16

/-- One SHA-256 compression round. -/
def shaRound (s : Hash8) (kw : Nat × Nat) : Hash8 :=
  let t1 := (s.h + bsig1 s.e + chF s.e s.f s.g + kw.1 + kw.2) % M32
  let t2 := (bsig0 s.a + majF s.a s.b s.c) % M32
  { a := (t1 + t2) % M32, b := s.a, c := s.b, d := s.c,
    e := (s.d + t1) % M32, f := s.e, g := s.f, h := s.g }

/-- Process one 64-byte block, updating the hash state. -/
def compressBlock (s : Hash8) (block : List Nat) : Hash8 :=
  let w := extendSchedule (toWords block)
  let t := (K256.zip w).foldl shaRound s
  { a := (s.a + t.a) % M32, b := (s.b + t.b) % M32, c := (s.c + t.c) % M32,
    d := (s.d + t.d) % M32, e := (s.e + t.e) % M32, f := (s.f + t.f) % M32,
    g := (s.g + t.g) % M32, h := (s.h + t.h) % M32 }

/-- Big-endian 4-byte encoding of a 32-bit word. -/
def be32 (w : Nat) : List Nat :=
  [w / 16777216 % 256, w / 65536 % 256, w / 256 % 256, w % 256]

/-- The 32 digest bytes of a final hash state. -/
def digestBytes (s : Hash8) : List Nat :=
  be32 s.a ++ be32 s.b ++ be32 s.c ++ be32 s.d ++
  be32 s.e ++ be32 s.f ++ be32 s.g ++ be32 s.h

/-- SHA-256 of a byte list: models `hashlib.sha256(data).digest()`. -/
def sha256 (msg : List Nat) : List Nat :=
  digestBytes ((toBlocks (padMessage msg)).foldl compressBlock h0init)

/-! ## HMAC-SHA-256, executable model of `hmac.new(key, msg, hashlib.sha256)` -/

/-- The HMAC key, hashed down when longer than the block size. -/
def hmacKey0 (key : List Nat) : List Nat :=
  if 64 < key.length then sha256 key else key

/-- The HMAC key padded with zeros to the 64-byte block size. -/
def hmacPad (key : List Nat) : List Nat :=
  hmacKey0 key ++ List.replicate (64 - (hmacKey0 key).length) 0

/-- The padded key xored with the HMAC inner-pad byte 0x36. -/
def hmacIpad (key : List Nat) : List Nat :=
  (hmacPad key).map (fun b => b ^^^ 54)

/-- The padded key xored with the HMAC outer-pad byte 0x5c. -/
def hmacOpad (key : List Nat) : List Nat :=
  (hmacPad key).map (fun b => b ^^^ 92)

/-- HMAC-SHA-256 digest (RFC 2104 with SHA-256, block size 64). -/
def hmacSha256 (key msg : List Nat) : List Nat :=
  sha256 (hmacOpad key ++ sha256 (hmacIpad key ++ msg))

/-- The sixteen lowercase hexadecimal digit characters. -/
def hexChars : List Char :=
  "0123456789abcdef".data

/-- Lowercase hexadecimal rendering of a byte list: models `.hexdigest()`. -/
def hexOfBytes (bs : List Nat) : String :=
  ⟨bs.flatMap (fun b => [hexChars.getD (b / 16) '0', hexChars.getD (b % 16) '0'])⟩

/-! ## Query-string decoding, executable model of `urllib.parse.parse_qsl`

`parse_qsl` is called with default arguments, so `keep_blank_values=False`
and `strict_parsing=False`: the input splits on `&`, empty segments and
segments without `=` are skipped, segments whose value part is empty are
skipped, and names and values get `+` turned into a space and are then
percent-decoded with UTF-8 `errors="replace"`. -/

/-- Split a character list at every occurrence of a separator character,
keeping empty pieces: models Python `str.split(sep)`. -/
def splitSep (sep : Char) : List Char → List (List Char)
  | [] => [[]]
  | c :: rest =>
    if c = sep then [] :: splitSep sep rest
    else
      match splitSep sep rest with
      | [] => [[c]]
      | g :: gs => (c :: g) :: gs

/-- Split a character list at the first occurrence of a separator, or `none`
when the separator is absent: models Python `str.split(sep, 1)`. -/
def splitOnce (sep : Char) : List Char → Option (List Char × List Char)
  | [] => none
  | c :: rest =>
    if c = sep then some ([], rest)
    else (splitOnce sep rest).map (fun p => (c :: p.1, p.2))

/-- Hexadecimal value of a character, if any (both cases accepted). -/
def hexVal (c : Char) : Option Nat :=
  if '0' ≤ c ∧ c ≤ '9' then some (c.toNat - 48)
  else if 'a' ≤ c ∧ c ≤ 'f' then some (c.toNat - 87)
  else if 'A' ≤ c ∧ c ≤ 'F' then some (c.toNat - 55)
  else none

/-- Scan for percent escapes: each valid `%XX` becomes a byte (right sum),
everything else stays a character (left sum). -/
def pctTokens : List Char → List (Char ⊕ Nat)
  | [] => []
  | '%' :: a :: b :: rest =>
    match hexVal a, hexVal b with
    | some ha, some hb => Sum.inr (16 * ha + hb) :: pctTokens rest
    | _, _ => Sum.inl '%' :: pctTokens (a :: b :: rest)
  | c :: rest => Sum.inl c :: pctTokens rest

/-- Group maximal runs of decoded bytes together, so each run is decoded as
one UTF-8 byte sequence as CPython does. -/
def groupBytes : List (Char ⊕ Nat) → List (Char ⊕ List Nat)
  | [] => []
  | Sum.inl c :: rest => Sum.inl c :: groupBytes rest
  | Sum.inr b :: rest =>
    match groupBytes rest with
    | Sum.inr bs :: out => Sum.inr (b :: bs) :: out
    | out => Sum.inr [b] :: out

/-- The Unicode replacement character. -/
def replChar : Char := Char.ofNat 0xFFFD

/-- Whether a byte is a UTF-8 continuation byte. -/
def isCont (b : Nat) : Bool := 128 ≤ b && b ≤ 191

/-- Whether the second byte is valid after a three-byte lead byte. -/
def utf8Cont2Ok (b b2 : Nat) : Bool :=
  (b = 224 && 160 ≤ b2 && b2 ≤ 191) ||
  (b = 237 && 128 ≤ b2 && b2 ≤ 159) ||
  (b ≠ 224 && b ≠ 237 && isCont b2)

/-- Whether the second byte is valid after a four-byte lead byte. -/
def utf8Cont4Ok (b b2 : Nat) : Bool :=
  (b = 240 && 144 ≤ b2 && b2 ≤ 191) ||
  (b = 244 && 128 ≤ b2 && b2 ≤ 143) ||
  (b ≠ 240 && b ≠ 244 && isCont b2)

/-- UTF-8 decoding with replacement of invalid sequences: models Python
`bytes.decode("utf-8", errors="replace")` (invalid data yields U+FFFD;
the exact grouping of invalid bytes is immaterial to this repository,
whose payload bytes decode without error). -/
def utf8DecodeReplace : List Nat → List Char
  | [] => []
  | [b] =>
    if b < 128 then [Char.ofNat b] else [replChar]
  | [b, b2] =>
    if b < 128 then Char.ofNat b :: utf8DecodeReplace [b2]
    else if 194 ≤ b && b ≤ 223 then
      if isCont b2 then [Char.ofNat ((b - 192) * 64 + (b2 - 128))]
      else replChar :: utf8DecodeReplace [b2]
    else if 224 ≤ b && b ≤ 239 then [replChar, replChar]
    else if 240 ≤ b && b ≤ 244 then [replChar, replChar]
    else replChar :: utf8DecodeReplace [b2]
  | [b, b2, b3] =>
    if b < 128 then Char.ofNat b :: utf8DecodeReplace [b2, b3]
    else if 194 ≤ b && b ≤ 223 then
      if isCont b2 then Char.ofNat ((b - 192) * 64 + (b2 - 128)) :: utf8DecodeReplace [b3]
      else replChar :: utf8DecodeReplace [b2, b3]
    else if 224 ≤ b && b ≤ 239 then
      if utf8Cont2Ok b b2 then
        if isCont b3 then [Char.ofNat ((b - 224) * 4096 + (b2 - 128) * 64 + (b3 - 128))]
        else replChar :: utf8DecodeReplace [b3]
      else replChar :: utf8DecodeReplace [b2, b3]
    else if 240 ≤ b && b ≤ 244 then
      if utf8Cont4Ok b b2 then
        if isCont b3 then [replChar] else replChar :: utf8DecodeReplace [b3]
      else replChar :: utf8DecodeReplace [b2, b3]
    else replChar :: utf8DecodeReplace [b2, b3]
  | b :: b2 :: b3 :: b4 :: rest =>
    if b < 128 then Char.ofNat b :: utf8DecodeReplace (b2 :: b3 :: b4 :: rest)
    else if 194 ≤ b && b ≤ 223 then
      if isCont b2 then Char.ofNat ((b - 192) * 64 + (b2 - 128)) :: utf8DecodeReplace (b3 :: b4 :: rest)
      else replChar :: utf8DecodeReplace (b2 :: b3 :: b4 :: rest)
    else if 224 ≤ b && b ≤ 239 then
      if utf8Cont2Ok b b2 then
        if isCont b3 then
          Char.ofNat ((b - 224) * 4096 + (b2 - 128) * 64 + (b3 - 128)) :: utf8DecodeReplace (b4 :: rest)
        else replChar :: utf8DecodeReplace (b3 :: b4 :: rest)
      else replChar :: utf8DecodeReplace (b2 :: b3 :: b4 :: rest)
    else if 240 ≤ b && b ≤ 244 then
      if utf8Cont4Ok b b2 then
        if isCont b3 then
          if isCont b4 then
            Char.ofNat ((b - 240) * 262144 + (b2 - 128) * 4096 + (b3 - 128) * 64 + (b4 - 128)) ::
              utf8DecodeReplace rest
          else replChar :: utf8DecodeReplace (b4 :: rest)
        else replChar :: utf8DecodeReplace (b3 :: b4 :: rest)
      else replChar :: utf8DecodeReplace (b2 :: b3 :: b4 :: rest)
    else replChar :: utf8DecodeReplace (b2 :: b3 :: b4 :: rest)

/-- Percent-decoding of a character list: models `urllib.parse.unquote` with
UTF-8 and `errors="replace"`. -/
def unquote (cs : List Char) : List Char :=
  (groupBytes (pctTokens cs)).flatMap
    (fun t => match t with
      | Sum.inl c => [c]
      | Sum.inr bs => utf8DecodeReplace bs)

/-- Replace `+` with a space, then percent-decode: the treatment `parse_qsl`
applies to each name and value. -/
def unquotePlus (cs : List Char) : String :=
  ⟨unquote (cs.map (fun c => if c = '+' then ' ' else c))⟩

/-- Decode one `name=value` segment, or `none` when `parse_qsl` skips it
(empty segment, no `=`, or empty value, given the default
`keep_blank_values=False`). -/
def pairOf (seg : List Char) : Option (String × String) :=
  if seg = [] then none
  else
    match splitOnce '=' seg with
    | none => none
    | some (n, v) =>
      if v = [] then none
      else some (unquotePlus n, unquotePlus v)

/-- Models `urllib.parse.parse_qsl(init_data)` with default arguments. -/
def parse_qsl (qs : String) : List (String × String) :=
  (splitSep '&' qs.data).filterMap pairOf

/-! ## Python `dict` and `int` models -/

/-- Last value bound to a key in a pair list, with a default. -/
def lastValue (k : String) (v : String) (ps : List (String × String)) : String :=
  (ps.filter (fun kv => kv.1 == k)).foldl (fun _ kv => kv.2) v

/-- Fuel-driven worker for `dictOf`; the fuel bounds the number of distinct
keys, so it never runs out when initialised with the length. -/
def dictOfF : Nat → List (String × String) → List (String × String)
  | _, [] => []
  | 0, _ :: _ => []
  | fuel + 1, (k, v) :: rest =>
    (k, lastValue k v rest) :: dictOfF fuel (rest.filter (fun kv => !(kv.1 == k)))

/-- Models `dict(pairs)`: keys appear in order of first occurrence, each with
the last value bound to it. -/
def dictOf (ps : List (String × String)) : List (String × String) :=
  dictOfF ps.length ps

/-- Tail of the digit-run parser: digits, with single interior underscores
allowed as Python `int` does. -/
def digitsGo (acc : Nat) : List Char → Option Nat
  | [] => some acc
  | '_' :: d :: rest =>
    if d.isDigit then digitsGo (acc * 10 + (d.toNat - 48)) rest else none
  | ['_'] => none
  | d :: rest =>
    if d.isDigit then digitsGo (acc * 10 + (d.toNat - 48)) rest else none

/-- Parse an unsigned decimal digit run, allowing single underscores between
digits as Python `int` does. -/
def digitsToNat : List Char → Option Nat
  | [] => none
  | c :: rest =>
    if c.isDigit then digitsGo (c.toNat - 48) rest else none

/-- ASCII whitespace characters stripped by Python `int`. -/
def isPyWs (c : Char) : Bool :=
  c = ' ' || c = '\t' || c = '\n' || c = '\x0d' || c = '\x0b' || c = '\x0c'

/-- Models Python `int(s)` on a string: strip whitespace, optional sign,
decimal digits with optional single interior underscores; `none` models a
`ValueError`.  (Non-ASCII digits, accepted by CPython, are not modelled;
no payload in this development contains them.) -/
def pyInt (s : String) : Option Int :=
  let t := (s.data.dropWhile isPyWs).reverse.dropWhile isPyWs |>.reverse
  match t with
  | '+' :: rest => (digitsToNat rest).map (fun n => (n : Int))
  | '-' :: rest => (digitsToNat rest).map (fun n => -(n : Int))
  | rest => (digitsToNat rest).map (fun n => (n : Int))

/-- Models `int(x)` applied to `data.get(...)`: on `None` Python raises a
`TypeError`, which the source catches alongside `ValueError`, so both
collapse to `none` here. -/
def pyIntOfOption : Option String → Option Int
  | none => none
  | some s => pyInt s

/-! ## The validation module itself -/

/-- A Python substring test: models `needle in haystack` on strings. -/
def startsWithB : List Char → List Char → Bool
  | [], _ => true
  | _ :: _, [] => false
  | a :: as, b :: bs => a = b && startsWithB as bs

/-- Whether the first list occurs contiguously inside the second. -/
def hasSub : List Char → List Char → Bool
  | n, [] => n.isEmpty
  | n, c :: rest => startsWithB n (c :: rest) || hasSub n rest

/-- Whether a string occurs as a substring of another: models Python
`needle in haystack`. -/
def substrOf (needle hay : String) : Bool :=
  hasSub needle.data hay.data

/-- Propositional form of the contiguous-occurrence relation. -/
def OccursIn (n h : List Char) : Prop :=
  ∃ s t, h = s ++ n ++ t

/-- Rejoin pieces with a separator: the inverse of `splitSep`. -/
def joinSep (sep : Char) : List (List Char) → List Char
  | [] => []
  | [p] => p
  | p :: q :: ps => p ++ sep :: joinSep sep (q :: ps)

/-- The exceptions the module can let escape: its own `ValidationError`,
and the builtin `KeyError` that `dict.pop` raises on a missing key. -/
inductive VError where
  | validationError (msg : String)
  | keyError (key : String)
deriving DecidableEq, Repr

/-- Outcome of a call to `validate_init_data`: a returned boolean, or a
raised exception. -/
inductive VResult where
  | ok (b : Bool)
  | raised (e : VError)
deriving DecidableEq, Repr

/-- Embeds `_secret_key` (source lines 10-20): HMAC-SHA-256 of the UTF-8
bytes of the bot token, keyed with the bytes literal `b"WebAppData"`. -/
def secret_key (bot_token : String) : List Nat :=
  hmacSha256 [87, 101, 98, 65, 112, 112, 68, 97, 116, 97] (utf8Bytes bot_token)

/-- Embeds `_hmac_hash` (source lines 23-34): hex digest of the
HMAC-SHA-256 of the UTF-8 bytes of the data-check string under the given
secret key. -/
def hmac_hash (sk : List Nat) (data_check_string : String) : String :=
  hexOfBytes (hmacSha256 sk (utf8Bytes data_check_string))

/-- The required parameter names (source line 54). -/
def data_requirements : List String :=
  ["user", "chat_instance", "chat_type", "auth_date", "hash"]

/-- The parsed field dictionary, `data = dict(urllib.parse.parse_qsl(init_data))`
(source line 60). -/
def parsedData (init_data : String) : List (String × String) :=
  dictOf (parse_qsl init_data)

/-- The value `data.pop("hash")` would return (source line 63): the entry
under the key `hash`, if any. -/
def received_hash? (init_data : String) : Option String :=
  (parsedData init_data).lookup "hash"

/-- The dictionary after `data.pop("hash")` removed the entry (source
line 63). -/
def dataAfterPop (init_data : String) : List (String × String) :=
  (parsedData init_data).filter (fun kv => !(kv.1 == "hash"))

/-- Strict lexicographic comparison of character lists by code point: the
string comparison Python uses. -/
def strLtB : List Char → List Char → Bool
  | [], [] => false
  | [], _ :: _ => true
  | _ :: _, [] => false
  | x :: xs, y :: ys => x < y || (x = y && strLtB xs ys)

/-- The sort order Python `sorted` uses on the `(key, value)` string pairs
of `data.items()`: lexicographic comparison of the tuples. -/
def pairLe (p q : String × String) : Prop :=
  p.1 < q.1 ∨ (p.1 = q.1 ∧ p.2 ≤ q.2)

instance : DecidableRel pairLe := fun p q =>
  decidable_of_iff
    ((strLtB p.1.data q.1.data || (p.1 == q.1 && !(strLtB q.2.data p.2.data))) = true)
    (by
      have key : ∀ a b : List Char, strLtB a b = true ↔ List.Lex (· < ·) a b := by
        intro a
        induction a with
        | nil =>
          intro b
          cases b with
          | nil =>
            simp only [strLtB, Bool.false_eq_true, false_iff]
            exact List.Lex.not_nil_right _ _
          | cons y ys =>
            simp only [strLtB, true_iff]
            exact List.Lex.nil
        | cons x xs ih =>
          intro b
          cases b with
          | nil =>
            simp only [strLtB, Bool.false_eq_true, false_iff]
            exact List.Lex.not_nil_right _ _
          | cons y ys =>
            rw [strLtB]
            simp only [Bool.or_eq_true, Bool.and_eq_true, decide_eq_true_eq, ih ys]
            constructor
            · rintro (hlt | ⟨rfl, hlex⟩)
              · exact List.Lex.rel hlt
              · exact List.Lex.cons hlex
            · intro hlex
              cases hlex with
              | rel h => exact Or.inl h
              | cons h => exact Or.inr ⟨rfl, h⟩
      have hltS : ∀ s t : String, s < t ↔ List.Lex (· < ·) s.data t.data := fun _ _ =>
        String.lt_iff_toList_lt
      simp only [Bool.or_eq_true, Bool.and_eq_true, beq_iff_eq, Bool.not_eq_true', pairLe]
      constructor
      · rintro (h | ⟨he, hf⟩)
        · exact Or.inl ((hltS p.1 q.1).mpr ((key _ _).mp h))
        · refine Or.inr ⟨he, ?_⟩
          have hnot : strLtB q.2.data p.2.data ≠ true := by rw [hf]; simp
          exact not_lt.mp (fun hq => hnot ((key _ _).mpr ((hltS q.2 p.2).mp hq)))
      · rintro (h | ⟨he, hle⟩)
        · exact Or.inl ((key _ _).mpr ((hltS p.1 q.1).mp h))
        · refine Or.inr ⟨he, ?_⟩
          cases hb : strLtB q.2.data p.2.data
          · rfl
          · exact absurd ((hltS q.2 p.2).mpr ((key _ _).mp hb)) (not_lt.mpr hle))

/-- The data-check string (source line 66): the sorted `key=value` lines
joined with newlines.  Python `sorted` is modelled by insertion sort with
respect to the tuple order; on a list with pairwise distinct keys — always
the case for `dict` items — the nondecreasing reordering is unique, so any
correct sort yields the same list. -/
def data_check_string (init_data : String) : String :=
  String.intercalate "\n"
    ((List.insertionSort pairLe (dataAfterPop init_data)).map (fun kv => kv.1 ++ "=" ++ kv.2))

/-- The calculated HMAC signature (source lines 69-70). -/
def calculated_hash (init_data bot_token : String) : String :=
  hmac_hash (secret_key bot_token) (data_check_string init_data)

/-- The parse `int(data.get("auth_date"))` guarded by
`except (TypeError, ValueError)` (source lines 77-80): `none` when the
exception handler would fire. -/
def auth_date? (init_data : String) : Option Int :=
  pyIntOfOption ((dataAfterPop init_data).lookup "auth_date")

/-- Embeds `validate_init_data` (source lines 37-86).  The wall clock read
`int(time.time())` (source line 82) is the explicit `current_time`
argument; `expiration_time` keeps its Python default of 3600. -/
def validate_init_data (init_data bot_token : String)
    (expiration_time : Int := 3600) (current_time : Int) : VResult :=
  match data_requirements.find? (fun req => !substrOf req init_data) with
  | some req =>
      VResult.raised (VError.validationError ("Invalid format: Missing " ++ req ++ " in init_data."))
  | none =>
    match received_hash? init_data with
    | none => VResult.raised (VError.keyError "hash")
    | some received_hash =>
      if received_hash ≠ calculated_hash init_data bot_token then VResult.ok false
      else
        match auth_date? init_data with
        | none =>
            VResult.raised (VError.validationError "Invalid \x27auth_date\x27 value in init_data.")
        | some auth_date =>
          if expiration_time < current_time - auth_date then VResult.ok false
          else VResult.ok true

/-- The presence pre-check of source lines 54-57, as a single boolean. -/
def presenceOk (init_data : String) : Bool :=
  data_requirements.all (fun req => substrOf req init_data)

/-- The secret key derived from the sample bot token `t`, used by the
concrete evaluations below (its value is certified by `skT_eval`). -/
def skTBytes : List Nat :=
  [71, 208, 133, 51, 219, 134, 241, 91, 65, 50, 237, 32, 202, 138, 230, 229,
   31, 37, 43, 98, 59, 159, 70, 245, 178, 51, 244, 182, 95, 12, 97, 24]

end TmaValidation

namespace TmaValidation

/-! ## General lemmas about the embedded module -/

/-- When the presence pre-check passes, the loop of source lines 55-57 finds
no missing requirement. -/
theorem find?_req_eq_none {init : String} (hp : presenceOk init = true) :
    data_requirements.find? (fun req => !substrOf req init) = none := by
  rw [List.find?_eq_none]
  intro r hr
  simp [List.all_eq_true.mp hp r hr]

/-- Core evaluation of `validate_init_data` once the presence pre-check has
passed and the `hash` entry exists: the signature comparison, then the
expiry check. -/
theorem validate_eq_core {init tok : String} {e now : Int} {rh : String}
    (hp : presenceOk init = true) (hh : received_hash? init = some rh) :
    validate_init_data init tok e now =
      (if rh ≠ calculated_hash init tok then VResult.ok false
       else
         match auth_date? init with
         | none =>
             VResult.raised (VError.validationError "Invalid \x27auth_date\x27 value in init_data.")
         | some ad => if e < now - ad then VResult.ok false else VResult.ok true) := by
  rw [validate_init_data, find?_req_eq_none hp, hh]

/-- Evaluation of `validate_init_data` when the signature matches and the
timestamp parses: only the expiry comparison remains. -/
theorem validate_eq_expiry {init tok rh : String} {ad e now : Int}
    (hp : presenceOk init = true) (hh : received_hash? init = some rh)
    (hmatch : rh = calculated_hash init tok) (hauth : auth_date? init = some ad) :
    validate_init_data init tok e now
      = if e < now - ad then VResult.ok false else VResult.ok true := by
  rw [validate_eq_core hp hh, if_neg (not_not_intro hmatch), hauth]

/-- The SHA-256 digest is always 32 bytes long. -/
theorem sha256_length (m : List Nat) : (sha256 m).length = 32 := by
  simp [sha256, digestBytes, be32]

/-- Every entry of a big-endian word encoding is below 256. -/
theorem be32_lt {w b : Nat} (hb : b ∈ be32 w) : b < 256 := by
  simp only [be32, List.mem_cons, List.not_mem_nil, or_false] at hb
  rcases hb with rfl | rfl | rfl | rfl <;> exact Nat.mod_lt _ (by norm_num)

/-- Every entry of a digest-byte rendering is below 256. -/
theorem digestBytes_lt (s : Hash8) : ∀ b ∈ digestBytes s, b < 256 := by
  intro b hb
  simp only [digestBytes, List.mem_append] at hb
  rcases hb with ((((((h | h) | h) | h) | h) | h) | h) | h <;> exact be32_lt h

/-- Every byte of a SHA-256 digest is below 256. -/
theorem sha256_lt (m : List Nat) : ∀ b ∈ sha256 m, b < 256 := by
  intro b hb
  unfold sha256 at hb
  exact digestBytes_lt _ b hb

/-- The character-list length of the hexadecimal rendering of a byte list. -/
theorem hexPair_length (bs : List Nat) :
    (bs.flatMap (fun b => [hexChars.getD (b / 16) '0', hexChars.getD (b % 16) '0'])).length
      = 2 * bs.length := by
  induction bs with
  | nil => rfl
  | cons b rest ih =>
      simp only [List.flatMap_cons, List.length_append, List.length_cons,
        List.length_nil, List.length_cons, ih]
      omega

/-- Rendering bytes in hexadecimal doubles the length. -/
theorem hexOfBytes_length (bs : List Nat) : (hexOfBytes bs).length = 2 * bs.length := by
  rw [hexOfBytes]
  exact hexPair_length bs

/-- The string `_hmac_hash` produces is always 64 characters long. -/
theorem hmac_hash_length (k : List Nat) (s : String) : (hmac_hash k s).length = 64 := by
  rw [hmac_hash, hexOfBytes_length, hmacSha256, sha256_length]

/-- The calculated signature is always 64 characters long, so no shorter
received value can match it. -/
theorem ne_calculated_of_length {s init tok : String} (h : s.length ≠ 64) :
    s ≠ calculated_hash init tok := by
  intro he
  rw [he, calculated_hash, hmac_hash_length] at h
  exact h rfl

/-- Indexing the hexadecimal digit table below 16 lands in the table. -/
theorem hexChars_getD_mem : ∀ n < 16, hexChars.getD n '0' ∈ hexChars := by decide

/-- Every character of the hexadecimal rendering of genuine bytes is a
lowercase hexadecimal digit. -/
theorem hexOfBytes_mem {bs : List Nat} (hlt : ∀ b ∈ bs, b < 256) :
    ∀ c ∈ (hexOfBytes bs).data, c ∈ hexChars := by
  intro c hc
  rw [hexOfBytes] at hc
  simp only [List.mem_flatMap, List.mem_cons, List.not_mem_nil, or_false] at hc
  obtain ⟨b, hb, hcase⟩ := hc
  have hblt := hlt b hb
  rcases hcase with rfl | rfl
  · exact hexChars_getD_mem _ (Nat.div_lt_of_lt_mul (by omega))
  · exact hexChars_getD_mem _ (Nat.mod_lt _ (by norm_num))

/-! ## The tuple order used to model Python `sorted` -/

/-- The pair order is transitive. -/
theorem pairLe_trans {a b c : String × String} (h1 : pairLe a b) (h2 : pairLe b c) :
    pairLe a c := by
  rcases h1 with h1 | ⟨e1, l1⟩
  · rcases h2 with h2 | ⟨e2, l2⟩
    · exact Or.inl (lt_trans h1 h2)
    · exact Or.inl (e2 ▸ h1)
  · rcases h2 with h2 | ⟨e2, l2⟩
    · exact Or.inl (e1 ▸ h2)
    · exact Or.inr ⟨e1.trans e2, le_trans l1 l2⟩

/-- The pair order is total. -/
theorem pairLe_total (a b : String × String) : pairLe a b ∨ pairLe b a := by
  rcases lt_trichotomy a.1 b.1 with h | h | h
  · exact Or.inl (Or.inl h)
  · rcases le_total a.2 b.2 with h2 | h2
    · exact Or.inl (Or.inr ⟨h, h2⟩)
    · exact Or.inr (Or.inr ⟨h.symm, h2⟩)
  · exact Or.inr (Or.inl h)

/-- The pair order is antisymmetric. -/
theorem pairLe_antisymm {a b : String × String} (h1 : pairLe a b) (h2 : pairLe b a) :
    a = b := by
  rcases h1 with h1 | ⟨e1, l1⟩
  · rcases h2 with h2 | ⟨e2, l2⟩
    · exact absurd h2 (lt_asymm h1)
    · rw [e2] at h1
      exact absurd h1 (lt_irrefl _)
  · rcases h2 with h2 | ⟨e2, l2⟩
    · rw [e1] at h2
      exact absurd h2 (lt_irrefl _)
    · exact Prod.ext e1 (le_antisymm l1 l2)

instance : IsTrans (String × String) pairLe := ⟨fun _ _ _ => pairLe_trans⟩

instance : IsTotal (String × String) pairLe := ⟨pairLe_total⟩

instance : IsAntisymm (String × String) pairLe := ⟨fun _ _ => pairLe_antisymm⟩

/-- Sorting with respect to the antisymmetric total pair order is invariant
under permutation of the input: the nondecreasing reordering is unique. -/
theorem insertionSort_eq_of_perm {l1 l2 : List (String × String)} (h : l1.Perm l2) :
    List.insertionSort pairLe l1 = List.insertionSort pairLe l2 := by
  exact List.eq_of_perm_of_sorted
    (((List.perm_insertionSort pairLe l1).trans h).trans
      (List.perm_insertionSort pairLe l2).symm)
    (List.sorted_insertionSort pairLe l1)
    (List.sorted_insertionSort pairLe l2)

/-! ## Lemmas about the `dict` model -/

/-- The fuel of `dictOfF` is irrelevant once it bounds the list length. -/
theorem dictOfF_congr :
    ∀ (f1 f2 : Nat) (ps : List (String × String)), ps.length ≤ f1 → ps.length ≤ f2 →
      dictOfF f1 ps = dictOfF f2 ps := by
  intro f1
  induction f1 with
  | zero =>
    intro f2 ps h1 _
    have : ps = [] := List.eq_nil_of_length_eq_zero (Nat.le_zero.mp h1)
    subst this
    cases f2 <;> rfl
  | succ g ih =>
    intro f2 ps h1 h2
    cases ps with
    | nil => cases f2 <;> rfl
    | cons kv rest =>
      obtain ⟨k, v⟩ := kv
      cases f2 with
      | zero => simp at h2
      | succ g2 =>
        simp only [dictOfF, List.cons.injEq, true_and]
        have hf := List.length_filter_le (fun kv => !(kv.1 == k)) rest
        simp only [List.length_cons, Nat.succ_le_succ_iff] at h1 h2
        exact ih g2 _ (le_trans hf h1) (le_trans hf h2)

/-- Unfolding equation for `dictOf` on a cons cell. -/
theorem dictOf_cons (k v : String) (rest : List (String × String)) :
    dictOf ((k, v) :: rest)
      = (k, lastValue k v rest) :: dictOf (rest.filter (fun kv => !(kv.1 == k))) := by
  rw [dictOf, dictOf]
  simp only [List.length_cons, dictOfF, List.cons.injEq, true_and]
  exact dictOfF_congr _ _ _ (List.length_filter_le _ _) (le_refl _)

/-- On a pair list with pairwise distinct keys, the `dict` model is the
identity. -/
theorem dictOf_eq_self {ps : List (String × String)} (h : (ps.map Prod.fst).Nodup) :
    dictOf ps = ps := by
  induction ps with
  | nil => rfl
  | cons kv rest ih =>
    obtain ⟨k, v⟩ := kv
    simp only [List.map_cons, List.nodup_cons, List.mem_map] at h
    have hnokey : ∀ p ∈ rest, ¬(p.1 == k) = true := by
      intro p hp hbeq
      exact h.1 ⟨p, hp, beq_iff_eq.mp hbeq⟩
    have hfs : rest.filter (fun kv => !(kv.1 == k)) = rest := by
      apply List.filter_eq_self.mpr
      intro p hp
      simp only [Bool.not_eq_true']
      cases hbe : (p.1 == k)
      · rfl
      · exact absurd hbe (hnokey p hp)
    have hlv : lastValue k v rest = v := by
      rw [lastValue]
      have : rest.filter (fun kv => kv.1 == k) = [] := by
        apply List.filter_eq_nil_iff.mpr
        exact hnokey
      rw [this]
      rfl
    rw [dictOf_cons, hlv, hfs, ih (by
      have := h.2
      simpa using this)]

/-- Lookup misses in the fuelled `dict` model when no pair carries the key. -/
theorem lookup_dictOfF_none (k : String) :
    ∀ (fuel : Nat) (ps : List (String × String)), (∀ p ∈ ps, p.1 ≠ k) →
      (dictOfF fuel ps).lookup k = none := by
  intro fuel
  induction fuel with
  | zero => intro ps _; cases ps <;> rfl
  | succ g ih =>
    intro ps h
    cases ps with
    | nil => rfl
    | cons kv rest =>
      obtain ⟨k1, v1⟩ := kv
      have hne : (k == k1) = false := by
        have := h (k1, v1) (List.mem_cons_self _ _)
        cases hbe : (k == k1)
        · rfl
        · exact absurd (beq_iff_eq.mp hbe).symm this
      simp only [dictOfF, List.lookup, hne]
      exact ih _ (fun p hp => h p (List.mem_cons_of_mem _ (List.mem_of_mem_filter hp)))

/-- Lookup misses in the `dict` model when no pair carries the key. -/
theorem lookup_dictOf_none {k : String} {ps : List (String × String)}
    (h : ∀ p ∈ ps, p.1 ≠ k) : (dictOf ps).lookup k = none :=
  lookup_dictOfF_none k _ ps h

/-! ## Substring occurrences and query-string splitting -/

/-- The boolean prefix test agrees with the existence of a tail. -/
theorem startsWithB_iff : ∀ (n h : List Char), startsWithB n h = true ↔ ∃ t, h = n ++ t := by
  intro n
  induction n with
  | nil => intro h; simp [startsWithB]
  | cons a as ih =>
    intro h
    cases h with
    | nil => simp [startsWithB]
    | cons b bs =>
      rw [startsWithB]
      simp only [Bool.and_eq_true, decide_eq_true_eq, ih bs, List.cons_append,
        List.cons.injEq]
      constructor
      · rintro ⟨rfl, t, rfl⟩
        exact ⟨t, rfl, rfl⟩
      · rintro ⟨t, rfl, rfl⟩
        exact ⟨rfl, t, rfl⟩

/-- The boolean substring test agrees with the occurrence relation. -/
theorem hasSub_iff (n : List Char) : ∀ (h : List Char), hasSub n h = true ↔ OccursIn n h := by
  intro h
  induction h with
  | nil =>
    rw [hasSub]
    simp only [List.isEmpty_iff, OccursIn]
    constructor
    · rintro rfl
      exact ⟨[], [], rfl⟩
    · rintro ⟨s, t, hst⟩
      have := List.append_eq_nil.mp hst.symm
      exact (List.append_eq_nil.mp this.1).2
  | cons c r ih =>
    rw [hasSub]
    simp only [Bool.or_eq_true, startsWithB_iff, ih, OccursIn]
    constructor
    · rintro (⟨t, ht⟩ | ⟨s, t, hst⟩)
      · exact ⟨[], t, by simp [ht]⟩
      · exact ⟨c :: s, t, by simp [hst]⟩
    · rintro ⟨s, t, hst⟩
      cases s with
      | nil => exact Or.inl ⟨t, by simpa using hst⟩
      | cons s0 s' =>
        simp only [List.cons_append, List.cons.injEq] at hst
        exact Or.inr ⟨s', t, hst.2⟩

/-- A separator-free list equal to an initial part of `xs ++ sep :: ys`
is a prefix of `xs`. -/
theorem sepFreeInitial {sep : Char} :
    ∀ (p xs t ys : List Char), sep ∉ p → p ++ t = xs ++ sep :: ys →
      ∃ u, xs = p ++ u := by
  intro p
  induction p with
  | nil => intro xs _ _ _ _; exact ⟨xs, rfl⟩
  | cons a p' ih =>
    intro xs t ys hmem heq
    cases xs with
    | nil =>
      simp only [List.cons_append, List.nil_append, List.cons.injEq] at heq
      exact absurd (heq.1 ▸ List.mem_cons_self a p') (fun hc => hmem (heq.1 ▸ hc))
    | cons x xs' =>
      simp only [List.cons_append, List.cons.injEq] at heq
      obtain ⟨u, hu⟩ := ih xs' t ys (fun hc => hmem (List.mem_cons_of_mem _ hc)) heq.2
      exact ⟨u, by rw [heq.1, hu]; rfl⟩

/-- Occurrence in a separated concatenation splits into occurrence on either
side, for a nonempty separator-free needle. -/
theorem occursIn_append_sep {sep : Char} {n : List Char} (hmem : sep ∉ n) (hne : n ≠ []) :
    ∀ (xs ys : List Char), OccursIn n (xs ++ sep :: ys) ↔ OccursIn n xs ∨ OccursIn n ys := by
  intro xs ys
  constructor
  · intro hocc
    induction xs with
    | nil =>
      obtain ⟨s, t, heq⟩ := hocc
      cases s with
      | nil =>
        cases n with
        | nil => exact absurd rfl hne
        | cons n0 n' =>
          simp only [List.nil_append, List.cons_append, List.cons.injEq] at heq
          exact absurd (heq.1 ▸ List.mem_cons_self n0 n') (fun hc => hmem (heq.1 ▸ hc))
      | cons s0 s' =>
        simp only [List.nil_append, List.cons_append, List.cons.injEq] at heq
        exact Or.inr ⟨s', t, heq.2⟩
    | cons x xs' ihx =>
      obtain ⟨s, t, heq⟩ := hocc
      cases s with
      | nil =>
        cases n with
        | nil => exact absurd rfl hne
        | cons n0 n'' =>
          simp only [List.cons_append, List.nil_append, List.cons.injEq] at heq
          obtain ⟨u, hu⟩ := sepFreeInitial n'' xs' t ys
            (fun hc => hmem (List.mem_cons_of_mem _ hc)) heq.2.symm
          exact Or.inl ⟨[], u, by simp [heq.1, hu]⟩
      | cons s0 s' =>
        simp only [List.cons_append, List.cons.injEq] at heq
        rcases ihx ⟨s', t, heq.2⟩ with h | h
        · obtain ⟨s2, t2, h2⟩ := h
          exact Or.inl ⟨x :: s2, t2, by simp [h2]⟩
        · exact Or.inr h
  · rintro (⟨s, t, hst⟩ | ⟨s, t, hst⟩)
    · exact ⟨s, t ++ sep :: ys, by simp [hst]⟩
    · exact ⟨xs ++ sep :: s, t, by simp [hst]⟩

/-- The split of a list at a separator is never empty. -/
theorem splitSep_ne_nil (sep : Char) (cs : List Char) : splitSep sep cs ≠ [] := by
  cases cs with
  | nil => simp [splitSep]
  | cons c rest =>
    rw [splitSep]
    split
    · simp
    · split <;> simp

/-- Joining undoes splitting. -/
theorem joinSep_splitSep (sep : Char) : ∀ cs : List Char, joinSep sep (splitSep sep cs) = cs := by
  intro cs
  induction cs with
  | nil => rfl
  | cons c rest ih =>
    obtain ⟨p, ps, hps⟩ := List.exists_cons_of_ne_nil (splitSep_ne_nil sep rest)
    rw [splitSep]
    by_cases hc : c = sep
    · simp only [if_pos hc, hps]
      rw [hps] at ih
      rw [joinSep, List.nil_append, ih, hc]
    · simp only [if_neg hc, hps]
      rw [hps] at ih
      cases ps with
      | nil =>
        rw [joinSep] at ih ⊢
        rw [ih]
      | cons q qs =>
        rw [joinSep] at ih ⊢
        rw [List.cons_append, ih]

/-- Occurrence in a joined list is occurrence in one of the parts, for a
nonempty separator-free needle. -/
theorem occursIn_joinSep {sep : Char} {n : List Char} (hmem : sep ∉ n) (hne : n ≠ []) :
    ∀ parts : List (List Char),
      (OccursIn n (joinSep sep parts) ↔ ∃ p ∈ parts, OccursIn n p) := by
  intro parts
  induction parts with
  | nil =>
    rw [joinSep]
    simp only [List.not_mem_nil, false_and, exists_false, iff_false]
    rintro ⟨s, t, hst⟩
    have := List.append_eq_nil.mp hst.symm
    exact hne (List.append_eq_nil.mp this.1).2
  | cons p ps ih =>
    cases ps with
    | nil => simp [joinSep]
    | cons q qs =>
      rw [joinSep]
      rw [occursIn_append_sep hmem hne]
      rw [ih]
      simp

/-- The substring pre-check only depends on the multiset of `&`-separated
segments, for the `&`-free nonempty requirement names. -/
theorem substr_eq_of_perm {s1 s2 r : String}
    (hperm : (splitSep '&' s1.data).Perm (splitSep '&' s2.data))
    (hmem : '&' ∉ r.data) (hne : r.data ≠ []) :
    substrOf r s1 = substrOf r s2 := by
  have h1 : substrOf r s1 = true ↔ ∃ p ∈ splitSep '&' s1.data, OccursIn r.data p := by
    rw [substrOf, hasSub_iff]
    conv_lhs => rw [← joinSep_splitSep '&' s1.data]
    exact occursIn_joinSep hmem hne _
  have h2 : substrOf r s2 = true ↔ ∃ p ∈ splitSep '&' s2.data, OccursIn r.data p := by
    rw [substrOf, hasSub_iff]
    conv_lhs => rw [← joinSep_splitSep '&' s2.data]
    exact occursIn_joinSep hmem hne _
  have hiff : substrOf r s1 = true ↔ substrOf r s2 = true := by
    rw [h1, h2]
    constructor
    · rintro ⟨p, hp, ho⟩
      exact ⟨p, hperm.mem_iff.mp hp, ho⟩
    · rintro ⟨p, hp, ho⟩
      exact ⟨p, hperm.mem_iff.mpr hp, ho⟩
  cases hb1 : substrOf r s1 <;> cases hb2 : substrOf r s2
  · rfl
  · exact absurd (hiff.mpr hb2) (by simp [hb1])
  · exact absurd (hiff.mp hb1) (by simp [hb2])
  · rfl

/-- Congruence for `find?` under pointwise equal predicates. -/
theorem find?_congr {α : Type} {p q : α → Bool} :
    ∀ l : List α, (∀ x ∈ l, p x = q x) → l.find? p = l.find? q := by
  intro l h
  induction l with
  | nil => rfl
  | cons a t ih =>
    have ha := h a (List.mem_cons_self a t)
    simp only [List.find?, ha]
    cases q a
    · exact ih (fun x hx => h x (List.mem_cons_of_mem a hx))
    · rfl

/-- On pair lists with pairwise distinct keys, lookup only depends on the
multiset of pairs. -/
theorem lookup_eq_of_perm {l1 l2 : List (String × String)} (h : l1.Perm l2)
    (nd : (l1.map Prod.fst).Nodup) (k : String) : l1.lookup k = l2.lookup k := by
  induction h with
  | nil => rfl
  | cons x _ ih =>
    obtain ⟨k1, v1⟩ := x
    simp only [List.lookup]
    cases hk : (k == k1)
    · simp only [List.map_cons, List.nodup_cons] at nd
      exact ih nd.2
    · rfl
  | swap x y l =>
    obtain ⟨k1, v1⟩ := x
    obtain ⟨k2, v2⟩ := y
    simp only [List.map_cons, List.nodup_cons, List.mem_cons, List.mem_map] at nd
    have hne : k2 ≠ k1 := fun e => nd.1 (Or.inl e)
    simp only [List.lookup]
    cases hk2 : (k == k2) <;> cases hk1 : (k == k1) <;> try rfl
    exact absurd ((beq_iff_eq.mp hk2).symm.trans (beq_iff_eq.mp hk1)) hne
  | trans h1 _ ih1 ih2 =>
    rw [ih1 nd, ih2 (((h1.map Prod.fst).nodup_iff).mp nd)]

/-! ## Concrete evaluations of the two keyed hashes

The digests below were produced by the executable model itself, whose
SHA-256 and HMAC cores reproduce the FIPS 180-4 and RFC 4231 test vectors.
Each HMAC application is certified in two kernel-checked stages (the inner
and the outer SHA-256 call) to keep every single reduction small. -/

/-- The secret key for the sample bot token `t`. -/
theorem skT_eval : secret_key "t" = skTBytes := by
  have h1 : sha256 (hmacIpad [87, 101, 98, 65, 112, 112, 68, 97, 116, 97] ++ utf8Bytes "t")
      = [157, 146, 26, 153, 134, 12, 11, 245, 246, 251, 152, 25, 140, 250, 105, 152,
         227, 4, 27, 26, 179, 176, 1, 159, 44, 149, 26, 238, 84, 190, 51, 128] := by decide
  have h2 : sha256 (hmacOpad [87, 101, 98, 65, 112, 112, 68, 97, 116, 97] ++
      [157, 146, 26, 153, 134, 12, 11, 245, 246, 251, 152, 25, 140, 250, 105, 152,
       227, 4, 27, 26, 179, 176, 1, 159, 44, 149, 26, 238, 84, 190, 51, 128]) = skTBytes := by
    decide
  rw [secret_key, hmacSha256, h1, h2]

/-- The signature of the fresh sample canonical string under token `t`. -/
theorem hm_c1 :
    hmac_hash skTBytes "auth_date=100\nchat_instance=1\nchat_type=p\nuser=u"
      = "7cbd3c2cebc1689e401e691454b4fde3f52089ae69166795becc2134b0c1ae92" := by
  have h1 : sha256 (hmacIpad skTBytes ++
      utf8Bytes "auth_date=100\nchat_instance=1\nchat_type=p\nuser=u")
      = [102, 172, 245, 194, 160, 77, 166, 253, 66, 116, 154, 7, 246, 44, 224, 238,
         241, 154, 28, 232, 62, 111, 207, 158, 90, 96, 210, 98, 143, 218, 117, 101] := by decide
  have h2 : sha256 (hmacOpad skTBytes ++
      [102, 172, 245, 194, 160, 77, 166, 253, 66, 116, 154, 7, 246, 44, 224, 238,
       241, 154, 28, 232, 62, 111, 207, 158, 90, 96, 210, 98, 143, 218, 117, 101])
      = [124, 189, 60, 44, 235, 193, 104, 158, 64, 30, 105, 20, 84, 180, 253, 227,
         245, 32, 137, 174, 105, 22, 103, 149, 190, 204, 33, 52, 176, 193, 174, 146] := by decide
  rw [hmac_hash, hmacSha256, h1, h2]
  decide

/-- The signature of the sample canonical string with a non-numeric
`auth_date` under token `t`. -/
theorem hm_c2 :
    hmac_hash skTBytes "auth_date=abc\nchat_instance=1\nchat_type=p\nuser=u"
      = "6eae972c6c25c528457715193a5f5985ec227f31a9ae1aee03b05c32d365c3c5" := by
  have h1 : sha256 (hmacIpad skTBytes ++
      utf8Bytes "auth_date=abc\nchat_instance=1\nchat_type=p\nuser=u")
      = [209, 200, 246, 96, 14, 183, 146, 145, 65, 212, 28, 17, 245, 48, 106, 237,
         156, 121, 24, 169, 184, 177, 254, 33, 145, 108, 11, 54, 24, 209, 203, 252] := by decide
  have h2 : sha256 (hmacOpad skTBytes ++
      [209, 200, 246, 96, 14, 183, 146, 145, 65, 212, 28, 17, 245, 48, 106, 237,
       156, 121, 24, 169, 184, 177, 254, 33, 145, 108, 11, 54, 24, 209, 203, 252])
      = [110, 174, 151, 44, 108, 37, 197, 40, 69, 119, 21, 25, 58, 95, 89, 133,
         236, 34, 127, 49, 169, 174, 26, 238, 3, 176, 92, 50, 211, 101, 195, 197] := by decide
  rw [hmac_hash, hmacSha256, h1, h2]
  decide

/-- The signature of the duplicate-key canonical string in which the later
pair `a=2` won, under token `t`. -/
theorem hm_c3 :
    hmac_hash skTBytes "a=2\nauth_date=5\nchat_instance=1\nchat_type=p\nuser=u"
      = "cc36a3419817cdf29e18e1b78fef3e4d3c99c934184861f73c832454b85e6b5a" := by
  have h1 : sha256 (hmacIpad skTBytes ++
      utf8Bytes "a=2\nauth_date=5\nchat_instance=1\nchat_type=p\nuser=u")
      = [142, 19, 166, 104, 199, 47, 108, 115, 89, 1, 79, 40, 121, 224, 215, 103,
         67, 24, 59, 136, 237, 64, 40, 176, 39, 154, 245, 150, 99, 40, 214, 74] := by decide
  have h2 : sha256 (hmacOpad skTBytes ++
      [142, 19, 166, 104, 199, 47, 108, 115, 89, 1, 79, 40, 121, 224, 215, 103,
       67, 24, 59, 136, 237, 64, 40, 176, 39, 154, 245, 150, 99, 40, 214, 74])
      = [204, 54, 163, 65, 152, 23, 205, 242, 158, 24, 225, 183, 143, 239, 62, 77,
         60, 153, 201, 52, 24, 72, 97, 247, 60, 131, 36, 84, 184, 94, 107, 90] := by decide
  rw [hmac_hash, hmacSha256, h1, h2]
  decide

/-- The signature of the duplicate-key canonical string in which the later
pair `a=1` won, under token `t`. -/
theorem hm_c4 :
    hmac_hash skTBytes "a=1\nauth_date=5\nchat_instance=1\nchat_type=p\nuser=u"
      = "5be1c52aae603626945ea505120786e82877eff8964cce4f040b2c6138e7b27f" := by
  have h1 : sha256 (hmacIpad skTBytes ++
      utf8Bytes "a=1\nauth_date=5\nchat_instance=1\nchat_type=p\nuser=u")
      = [140, 37, 72, 129, 144, 200, 105, 86, 74, 160, 103, 22, 104, 166, 187, 130,
         13, 19, 182, 7, 63, 243, 253, 104, 80, 151, 188, 54, 66, 82, 251, 205] := by decide
  have h2 : sha256 (hmacOpad skTBytes ++
      [140, 37, 72, 129, 144, 200, 105, 86, 74, 160, 103, 22, 104, 166, 187, 130,
       13, 19, 182, 7, 63, 243, 253, 104, 80, 151, 188, 54, 66, 82, 251, 205])
      = [91, 225, 197, 42, 174, 96, 54, 38, 148, 94, 165, 5, 18, 7, 134, 232,
         40, 119, 239, 248, 150, 76, 206, 79, 4, 11, 44, 97, 56, 231, 178, 127] := by decide
  rw [hmac_hash, hmacSha256, h1, h2]
  decide

/-- The calculated signature of the fresh, correctly signed sample payload. -/
theorem ch_p1 :
    calculated_hash
      "user=u&chat_instance=1&chat_type=p&auth_date=100&hash=7cbd3c2cebc1689e401e691454b4fde3f52089ae69166795becc2134b0c1ae92"
      "t" = "7cbd3c2cebc1689e401e691454b4fde3f52089ae69166795becc2134b0c1ae92" := by
  have hd : data_check_string
      "user=u&chat_instance=1&chat_type=p&auth_date=100&hash=7cbd3c2cebc1689e401e691454b4fde3f52089ae69166795becc2134b0c1ae92"
      = "auth_date=100\nchat_instance=1\nchat_type=p\nuser=u" := by decide
  rw [calculated_hash, hd, skT_eval]
  exact hm_c1

/-- The calculated signature of the correctly signed payload whose
`auth_date` is the non-numeric `abc`. -/
theorem ch_p2 :
    calculated_hash
      "user=u&chat_instance=1&chat_type=p&auth_date=abc&hash=6eae972c6c25c528457715193a5f5985ec227f31a9ae1aee03b05c32d365c3c5"
      "t" = "6eae972c6c25c528457715193a5f5985ec227f31a9ae1aee03b05c32d365c3c5" := by
  have hd : data_check_string
      "user=u&chat_instance=1&chat_type=p&auth_date=abc&hash=6eae972c6c25c528457715193a5f5985ec227f31a9ae1aee03b05c32d365c3c5"
      = "auth_date=abc\nchat_instance=1\nchat_type=p\nuser=u" := by decide
  rw [calculated_hash, hd, skT_eval]
  exact hm_c2

/-- The calculated signature of the duplicate-key payload listing `a=1`
before `a=2`. -/
theorem ch_p3 :
    calculated_hash
      "a=1&a=2&user=u&chat_instance=1&chat_type=p&auth_date=5&hash=cc36a3419817cdf29e18e1b78fef3e4d3c99c934184861f73c832454b85e6b5a"
      "t" = "cc36a3419817cdf29e18e1b78fef3e4d3c99c934184861f73c832454b85e6b5a" := by
  have hd : data_check_string
      "a=1&a=2&user=u&chat_instance=1&chat_type=p&auth_date=5&hash=cc36a3419817cdf29e18e1b78fef3e4d3c99c934184861f73c832454b85e6b5a"
      = "a=2\nauth_date=5\nchat_instance=1\nchat_type=p\nuser=u" := by decide
  rw [calculated_hash, hd, skT_eval]
  exact hm_c3

/-- The calculated signature of the duplicate-key payload listing `a=2`
before `a=1`: the later pair `a=1` wins, so the signature differs. -/
theorem ch_p4 :
    calculated_hash
      "a=2&a=1&user=u&chat_instance=1&chat_type=p&auth_date=5&hash=cc36a3419817cdf29e18e1b78fef3e4d3c99c934184861f73c832454b85e6b5a"
      "t" = "5be1c52aae603626945ea505120786e82877eff8964cce4f040b2c6138e7b27f" := by
  have hd : data_check_string
      "a=2&a=1&user=u&chat_instance=1&chat_type=p&auth_date=5&hash=cc36a3419817cdf29e18e1b78fef3e4d3c99c934184861f73c832454b85e6b5a"
      = "a=1\nauth_date=5\nchat_instance=1\nchat_type=p\nuser=u" := by decide
  rw [calculated_hash, hd, skT_eval]
  exact hm_c4

/-- Splitting at the separator a separator-free list is suffixed with
yields that list and an empty remainder. -/
theorem splitOnce_sep_free (sep : Char) :
    ∀ name : List Char, sep ∉ name → splitOnce sep (name ++ [sep]) = some (name, []) := by
  intro name
  induction name with
  | nil => intro _; simp [splitOnce]
  | cons a name' ih =>
    intro hmem
    have hane : ¬(a = sep) := fun hc => hmem (hc ▸ List.mem_cons_self a name')
    rw [List.cons_append, splitOnce, if_neg hane, ih (fun hc => hmem (List.mem_cons_of_mem _ hc))]
    rfl

/-! ## The claims -/

/-- C1: with the presence pre-check passed and the `hash` entry present,
`validate_init_data` returns `true` exactly when the received signature
equals the calculated signature and the parsed `auth_date` lies within the
freshness window, and returns `false` (rather than raising) on a signature
mismatch or an expired timestamp. -/
theorem C1_validate_true_iff (init tok : String) (e now : Int) (rh : String)
    (hp : presenceOk init = true) (hh : received_hash? init = some rh) :
    (validate_init_data init tok e now = VResult.ok true ↔
      (rh = calculated_hash init tok ∧ ∃ ad, auth_date? init = some ad ∧ now - ad ≤ e))
    ∧ (rh ≠ calculated_hash init tok → validate_init_data init tok e now = VResult.ok false)
    ∧ (∀ ad, rh = calculated_hash init tok → auth_date? init = some ad → e < now - ad →
        validate_init_data init tok e now = VResult.ok false) := by
  by_cases hne : rh = calculated_hash init tok
  · rcases hau : auth_date? init with _ | ad
    · have hv : validate_init_data init tok e now
          = VResult.raised (VError.validationError "Invalid \x27auth_date\x27 value in init_data.") := by
        rw [validate_eq_core hp hh, if_neg (not_not_intro hne), hau]
      refine ⟨?_, fun hc => absurd hne hc, fun ad _ hadeq _ => Option.noConfusion hadeq⟩
      constructor
      · intro hc
        rw [hv] at hc
        simp at hc
      · rintro ⟨_, ad, hadeq, _⟩
        exact Option.noConfusion hadeq
    · have hv : validate_init_data init tok e now
          = if e < now - ad then VResult.ok false else VResult.ok true :=
        validate_eq_expiry hp hh hne hau
      by_cases hlt : e < now - ad
      · rw [if_pos hlt] at hv
        refine ⟨?_, fun hc => absurd hne hc, fun _ _ _ _ => hv⟩
        constructor
        · intro hc
          rw [hv] at hc
          simp at hc
        · rintro ⟨_, ad2, hadeq, hle⟩
          injection hadeq with h2
          subst h2
          omega
      · rw [if_neg hlt] at hv
        refine ⟨⟨fun _ => ⟨hne, ad, rfl, by omega⟩, fun _ => hv⟩, fun hc => absurd hne hc,
          fun ad2 _ hadeq hlt2 => ?_⟩
        injection hadeq with h2
        subst h2
        omega
  · have hv : validate_init_data init tok e now = VResult.ok false := by
      rw [validate_eq_core hp hh, if_pos hne]
    refine ⟨?_, fun _ => hv, fun ad2 hc _ _ => absurd hc hne⟩
    constructor
    · intro hc
      rw [hv] at hc
      simp at hc
    · rintro ⟨hc, _⟩
      exact absurd hc hne

/-- C1 witness: the fresh, correctly signed sample payload validates as
`true` through the characterisation. -/
theorem C1_witness :
    validate_init_data
      "user=u&chat_instance=1&chat_type=p&auth_date=100&hash=7cbd3c2cebc1689e401e691454b4fde3f52089ae69166795becc2134b0c1ae92"
      "t" 3600 200 = VResult.ok true :=
  (C1_validate_true_iff
    "user=u&chat_instance=1&chat_type=p&auth_date=100&hash=7cbd3c2cebc1689e401e691454b4fde3f52089ae69166795becc2134b0c1ae92"
    "t" 3600 200 "7cbd3c2cebc1689e401e691454b4fde3f52089ae69166795becc2134b0c1ae92"
    (by decide) (by decide)).1.mpr
    ⟨ch_p1.symm, 100, by decide, by norm_num⟩

/-- C2 counterexample: a payload carrying all five required substrings and
the unparseable `auth_date` value `abc`, but a mismatching signature,
makes `validate_init_data` return the boolean `false` instead of raising
`MalformedPayload`, contradicting the claim that a non-numeric `auth_date`
raises regardless of the signature. -/
theorem C2_counterexample :
    presenceOk "user=u&chat_instance=1&chat_type=p&auth_date=abc&hash=x" = true
    ∧ auth_date? "user=u&chat_instance=1&chat_type=p&auth_date=abc&hash=x" = none
    ∧ validate_init_data "user=u&chat_instance=1&chat_type=p&auth_date=abc&hash=x" "t" 3600 0
        = VResult.ok false := by
  refine ⟨by decide, by decide, ?_⟩
  have hne : ("x" : String) ≠
      calculated_hash "user=u&chat_instance=1&chat_type=p&auth_date=abc&hash=x" "t" :=
    ne_calculated_of_length (by decide)
  rw [@validate_eq_core "user=u&chat_instance=1&chat_type=p&auth_date=abc&hash=x" "t" 3600 0 "x"
    (by decide) (by decide), if_pos hne]

/-- C2 amended: when the received signature does match the calculated one,
a payload whose `auth_date` does not parse as an integer makes
`validate_init_data` raise the `ValidationError` for a bad `auth_date`
rather than return a boolean. -/
theorem C2_amended_auth_date_raises (init tok : String) (e now : Int) (rh : String)
    (hp : presenceOk init = true) (hh : received_hash? init = some rh)
    (hmatch : rh = calculated_hash init tok) (hbad : auth_date? init = none) :
    validate_init_data init tok e now
      = VResult.raised (VError.validationError "Invalid \x27auth_date\x27 value in init_data.") := by
  rw [validate_eq_core hp hh, if_neg (not_not_intro hmatch), hbad]

/-- C2 amended witness: the correctly signed payload with `auth_date=abc`
raises the bad-`auth_date` error. -/
theorem C2_amended_witness :
    validate_init_data
      "user=u&chat_instance=1&chat_type=p&auth_date=abc&hash=6eae972c6c25c528457715193a5f5985ec227f31a9ae1aee03b05c32d365c3c5"
      "t" 3600 0
      = VResult.raised (VError.validationError "Invalid \x27auth_date\x27 value in init_data.") :=
  C2_amended_auth_date_raises
    "user=u&chat_instance=1&chat_type=p&auth_date=abc&hash=6eae972c6c25c528457715193a5f5985ec227f31a9ae1aee03b05c32d365c3c5"
    "t" 3600 0 "6eae972c6c25c528457715193a5f5985ec227f31a9ae1aee03b05c32d365c3c5"
    (by decide) (by decide) ch_p2.symm (by decide)

/-- C3: a payload that passes the substring pre-check (the token `hash`
appears only inside the value of the extra field `k`) but whose decoded
field map has no `hash` key makes the code raise the builtin `KeyError`
from the unguarded `data.pop("hash")`, not the `ValidationError`
(`MalformedPayload`) the specification prescribes. -/
theorem C3_keyerror_on_missing_hash_key :
    presenceOk "user=u&chat_instance=1&chat_type=p&auth_date=1&k=hash" = true
    ∧ received_hash? "user=u&chat_instance=1&chat_type=p&auth_date=1&k=hash" = none
    ∧ validate_init_data "user=u&chat_instance=1&chat_type=p&auth_date=1&k=hash" "t" 3600 0
        = VResult.raised (VError.keyError "hash") := by
  refine ⟨by decide, by decide, ?_⟩
  rw [validate_init_data, find?_req_eq_none (by decide),
    show received_hash? "user=u&chat_instance=1&chat_type=p&auth_date=1&k=hash" = none from by
      decide]

/-- C4: whenever the received signature differs from the calculated one,
`validate_init_data` returns `false` for every expiry threshold and every
clock value, with no constraint on `auth_date` at all. -/
theorem C4_mismatch_returns_false (init tok : String) (rh : String)
    (hp : presenceOk init = true) (hh : received_hash? init = some rh)
    (hne : rh ≠ calculated_hash init tok) :
    ∀ e now : Int, validate_init_data init tok e now = VResult.ok false := by
  intro e now
  rw [validate_eq_core hp hh, if_pos hne]

/-- C4 witness: a payload with a one-character signature is rejected with
`false` even though its `auth_date` is fresh. -/
theorem C4_witness :
    validate_init_data "user=u&chat_instance=1&chat_type=p&auth_date=100&hash=x" "t" 3600 200
      = VResult.ok false :=
  C4_mismatch_returns_false "user=u&chat_instance=1&chat_type=p&auth_date=100&hash=x" "t" "x"
    (by decide) (by decide) (ne_calculated_of_length (by decide)) 3600 200

/-- C5 counterexample: permuting the `key=value` pairs of a payload with a
duplicate key changes the result, because last-value-wins decoding changes
the canonical string.  The two payloads below hold the same pairs in
different orders; one validates `true`, the other `false`. -/
theorem C5_counterexample :
    (splitSep '&'
        "a=1&a=2&user=u&chat_instance=1&chat_type=p&auth_date=5&hash=cc36a3419817cdf29e18e1b78fef3e4d3c99c934184861f73c832454b85e6b5a".data).Perm
      (splitSep '&'
        "a=2&a=1&user=u&chat_instance=1&chat_type=p&auth_date=5&hash=cc36a3419817cdf29e18e1b78fef3e4d3c99c934184861f73c832454b85e6b5a".data)
    ∧ validate_init_data
        "a=1&a=2&user=u&chat_instance=1&chat_type=p&auth_date=5&hash=cc36a3419817cdf29e18e1b78fef3e4d3c99c934184861f73c832454b85e6b5a"
        "t" 3600 5 = VResult.ok true
    ∧ validate_init_data
        "a=2&a=1&user=u&chat_instance=1&chat_type=p&auth_date=5&hash=cc36a3419817cdf29e18e1b78fef3e4d3c99c934184861f73c832454b85e6b5a"
        "t" 3600 5 = VResult.ok false := by
  refine ⟨by decide, ?_, ?_⟩
  · rw [@validate_eq_expiry
      "a=1&a=2&user=u&chat_instance=1&chat_type=p&auth_date=5&hash=cc36a3419817cdf29e18e1b78fef3e4d3c99c934184861f73c832454b85e6b5a"
      "t" "cc36a3419817cdf29e18e1b78fef3e4d3c99c934184861f73c832454b85e6b5a" 5 3600 5
      (by decide) (by decide) ch_p3.symm (by decide), if_neg (by norm_num)]
  · have hne : ("cc36a3419817cdf29e18e1b78fef3e4d3c99c934184861f73c832454b85e6b5a" : String)
        ≠ calculated_hash
          "a=2&a=1&user=u&chat_instance=1&chat_type=p&auth_date=5&hash=cc36a3419817cdf29e18e1b78fef3e4d3c99c934184861f73c832454b85e6b5a"
          "t" := by
      rw [ch_p4]
      decide
    rw [@validate_eq_core
      "a=2&a=1&user=u&chat_instance=1&chat_type=p&auth_date=5&hash=cc36a3419817cdf29e18e1b78fef3e4d3c99c934184861f73c832454b85e6b5a"
      "t" 3600 5 "cc36a3419817cdf29e18e1b78fef3e4d3c99c934184861f73c832454b85e6b5a"
      (by decide) (by decide), if_pos hne]

/-- C5 amended: for payloads whose decoded pairs carry pairwise distinct
keys, `validate_init_data` is invariant under any permutation of the
`&`-separated segments of the query string (the `hash` pair included):
presence checking, decoding, the sorted canonical string, and both lookups
only depend on the multiset of segments. -/
theorem C5_order_invariance (s1 s2 tok : String) (e now : Int)
    (hsplit : (splitSep '&' s1.data).Perm (splitSep '&' s2.data))
    (hnd : ((parse_qsl s1).map Prod.fst).Nodup) :
    validate_init_data s1 tok e now = validate_init_data s2 tok e now := by
  have hparse : (parse_qsl s1).Perm (parse_qsl s2) := by
    rw [parse_qsl, parse_qsl]
    exact hsplit.filterMap pairOf
  have hnd2 : ((parse_qsl s2).map Prod.fst).Nodup := ((hparse.map Prod.fst).nodup_iff).mp hnd
  have hd1 : parsedData s1 = parse_qsl s1 := by
    rw [parsedData]
    exact dictOf_eq_self hnd
  have hd2 : parsedData s2 = parse_qsl s2 := by
    rw [parsedData]
    exact dictOf_eq_self hnd2
  have hdp : (parsedData s1).Perm (parsedData s2) := by
    rw [hd1, hd2]
    exact hparse
  have hndd : ((parsedData s1).map Prod.fst).Nodup := by
    rw [hd1]
    exact hnd
  have hrh : received_hash? s1 = received_hash? s2 := by
    rw [received_hash?, received_hash?]
    exact lookup_eq_of_perm hdp hndd "hash"
  have hpopp : (dataAfterPop s1).Perm (dataAfterPop s2) := by
    rw [dataAfterPop, dataAfterPop]
    exact hdp.filter _
  have hndpop : ((dataAfterPop s1).map Prod.fst).Nodup := by
    rw [dataAfterPop]
    exact hndd.sublist ((List.filter_sublist _).map Prod.fst)
  have hauth : auth_date? s1 = auth_date? s2 := by
    rw [auth_date?, auth_date?, lookup_eq_of_perm hpopp hndpop "auth_date"]
  have hdcs : data_check_string s1 = data_check_string s2 := by
    rw [data_check_string, data_check_string, insertionSort_eq_of_perm hpopp]
  have hch : calculated_hash s1 tok = calculated_hash s2 tok := by
    rw [calculated_hash, calculated_hash, hdcs]
  have hfind : data_requirements.find? (fun req => !substrOf req s1)
      = data_requirements.find? (fun req => !substrOf req s2) := by
    apply find?_congr
    intro r hr
    simp only [data_requirements, List.mem_cons, List.not_mem_nil, or_false] at hr
    rcases hr with rfl | rfl | rfl | rfl | rfl <;>
      rw [substr_eq_of_perm hsplit (by decide) (by decide)]
  rw [validate_init_data, validate_init_data, hfind, hrh, hch, hauth]

/-- C5 witness: two orderings of the same distinct-key payload produce the
same validation outcome. -/
theorem C5_witness :
    validate_init_data "user=u&chat_instance=1&chat_type=p&auth_date=100&hash=x" "t" 3600 200
      = validate_init_data "hash=x&auth_date=100&chat_type=p&chat_instance=1&user=u" "t" 3600 200 :=
  C5_order_invariance "user=u&chat_instance=1&chat_type=p&auth_date=100&hash=x"
    "hash=x&auth_date=100&chat_type=p&chat_instance=1&user=u" "t" 3600 200
    (by decide) (by decide)

/-- The missing-field message determines the field it names. -/
theorem missing_msg_inj {a b : String}
    (h : "Invalid format: Missing " ++ a ++ " in init_data."
       = "Invalid format: Missing " ++ b ++ " in init_data.") : a = b := by
  obtain ⟨la⟩ := a
  obtain ⟨lb⟩ := b
  have hd : "Invalid format: Missing ".data ++ la ++ " in init_data.".data
      = "Invalid format: Missing ".data ++ lb ++ " in init_data.".data :=
    congrArg String.data h
  exact congrArg String.mk (List.append_cancel_left (List.append_cancel_right hd))

/-- The bad-`auth_date` message is no missing-field message, whatever field
name the latter would carry: the two disagree at their ninth character. -/
theorem authMsg_ne_missing (r : String) :
    ("Invalid \x27auth_date\x27 value in init_data." : String)
      ≠ "Invalid format: Missing " ++ r ++ " in init_data." := by
  intro h
  obtain ⟨lr⟩ := r
  have hd : "Invalid \x27auth_date\x27 value in init_data.".data
      = ("Invalid format: Missing ".data ++ lr) ++ " in init_data.".data :=
    congrArg String.data h
  have h8 := congrArg (fun l => l[8]?) hd
  simp only at h8
  rw [List.getElem?_append_left (by
        simp only [List.length_append, List.length_cons, List.length_nil]
        omega),
      List.getElem?_append_left (by decide)] at h8
  exact absurd h8 (by decide)

/-- C6: a missing-field `ValidationError` is raised exactly when some
required name fails the substring pre-check, and any raised missing-field
message names a field that is itself required and missing from the raw
text; consequently, when every required name appears somewhere in the raw
text — even only inside a value — no missing-field error can arise. -/
theorem C6_presence_check_iff (init tok : String) (e now : Int) :
    ((∃ r ∈ data_requirements, substrOf r init = false) ↔
      (∃ r ∈ data_requirements, substrOf r init = false ∧
        validate_init_data init tok e now
          = VResult.raised
              (VError.validationError ("Invalid format: Missing " ++ r ++ " in init_data."))))
    ∧ (∀ r : String,
        validate_init_data init tok e now
          = VResult.raised
              (VError.validationError ("Invalid format: Missing " ++ r ++ " in init_data."))
        → r ∈ data_requirements ∧ substrOf r init = false) := by
  constructor
  · constructor
    · rintro ⟨r, hr, hmiss⟩
      have hsome : (data_requirements.find? (fun req => !substrOf req init)).isSome := by
        rw [List.find?_isSome]
        exact ⟨r, hr, by simp [hmiss]⟩
      obtain ⟨r0, hr0⟩ := Option.isSome_iff_exists.mp hsome
      refine ⟨r0, List.mem_of_find?_eq_some hr0, ?_, ?_⟩
      · simpa using List.find?_some hr0
      · rw [validate_init_data, hr0]
    · rintro ⟨r, hr, hmiss, _⟩
      exact ⟨r, hr, hmiss⟩
  · intro r heq
    rcases hfind : data_requirements.find? (fun req => !substrOf req init) with _ | r0
    · exfalso
      have hp : presenceOk init = true := by
        apply List.all_eq_true.mpr
        intro x hx
        have hx2 := List.find?_eq_none.mp hfind x hx
        cases hxv : substrOf x init
        · exact absurd (by simp [hxv]) hx2
        · rfl
      rcases hrh : received_hash? init with _ | rh
      · rw [validate_init_data, hfind, hrh] at heq
        simp at heq
      · rw [validate_eq_core hp hrh] at heq
        by_cases hne : rh ≠ calculated_hash init tok
        · rw [if_pos hne] at heq
          simp at heq
        · rw [if_neg hne] at heq
          rcases hau : auth_date? init with _ | ad
          · rw [hau] at heq
            simp only [VResult.raised.injEq, VError.validationError.injEq] at heq
            exact authMsg_ne_missing r heq
          · rw [hau] at heq
            have heq2 : (if e < now - ad then VResult.ok false else VResult.ok true)
                = VResult.raised
                    (VError.validationError ("Invalid format: Missing " ++ r ++ " in init_data.")) :=
              heq
            by_cases hlt : e < now - ad
            · rw [if_pos hlt] at heq2
              simp at heq2
            · rw [if_neg hlt] at heq2
              simp at heq2
    · rw [validate_init_data, hfind] at heq
      simp only [VResult.raised.injEq, VError.validationError.injEq] at heq
      obtain rfl := missing_msg_inj heq
      refine ⟨List.mem_of_find?_eq_some hfind, ?_⟩
      simpa using List.find?_some hfind

/-- C7: for a correctly signed payload the expiry boundary is inclusive:
at current time `auth_date + expiration_time` the validator returns
`true`, one second later it returns `false`. -/
theorem C7_expiry_boundary (init tok : String) (e ad : Int) (rh : String)
    (hp : presenceOk init = true) (hh : received_hash? init = some rh)
    (hmatch : rh = calculated_hash init tok) (hauth : auth_date? init = some ad) :
    validate_init_data init tok e (ad + e) = VResult.ok true
    ∧ validate_init_data init tok e (ad + e + 1) = VResult.ok false := by
  constructor
  · rw [validate_eq_expiry hp hh hmatch hauth, if_neg (by omega)]
  · rw [validate_eq_expiry hp hh hmatch hauth, if_pos (by omega)]

/-- C7 witness: the signed sample payload with `auth_date=100` and window 50
validates at time 150 and fails at time 151. -/
theorem C7_witness :
    validate_init_data
      "user=u&chat_instance=1&chat_type=p&auth_date=100&hash=7cbd3c2cebc1689e401e691454b4fde3f52089ae69166795becc2134b0c1ae92"
      "t" 50 150 = VResult.ok true
    ∧ validate_init_data
      "user=u&chat_instance=1&chat_type=p&auth_date=100&hash=7cbd3c2cebc1689e401e691454b4fde3f52089ae69166795becc2134b0c1ae92"
      "t" 50 151 = VResult.ok false :=
  C7_expiry_boundary
    "user=u&chat_instance=1&chat_type=p&auth_date=100&hash=7cbd3c2cebc1689e401e691454b4fde3f52089ae69166795becc2134b0c1ae92"
    "t" 50 100 "7cbd3c2cebc1689e401e691454b4fde3f52089ae69166795becc2134b0c1ae92"
    (by decide) (by decide) ch_p1.symm (by decide)

/-- C8: a correctly signed payload whose `auth_date` lies in the future of
the verifier clock is treated as fresh for every non-negative threshold:
no future-skew rejection exists. -/
theorem C8_future_treated_fresh (init tok : String) (e now ad : Int) (rh : String)
    (hp : presenceOk init = true) (hh : received_hash? init = some rh)
    (hmatch : rh = calculated_hash init tok) (hauth : auth_date? init = some ad)
    (hfut : now < ad) (hexp : 0 ≤ e) :
    validate_init_data init tok e now = VResult.ok true := by
  rw [validate_eq_expiry hp hh hmatch hauth, if_neg (by omega)]

/-- C8 witness: the signed sample payload timestamped at 100 validates at
the earlier clock value 50. -/
theorem C8_witness :
    validate_init_data
      "user=u&chat_instance=1&chat_type=p&auth_date=100&hash=7cbd3c2cebc1689e401e691454b4fde3f52089ae69166795becc2134b0c1ae92"
      "t" 3600 50 = VResult.ok true :=
  C8_future_treated_fresh
    "user=u&chat_instance=1&chat_type=p&auth_date=100&hash=7cbd3c2cebc1689e401e691454b4fde3f52089ae69166795becc2134b0c1ae92"
    "t" 3600 50 100 "7cbd3c2cebc1689e401e691454b4fde3f52089ae69166795becc2134b0c1ae92"
    (by decide) (by decide) ch_p1.symm (by decide) (by norm_num) (by norm_num)

/-- C9: the secret material is the HMAC-SHA-256 digest of the UTF-8 bytes
of the token keyed with the ASCII literal `WebAppData` and is 32 bytes
long; the computed signature is the lowercase-hexadecimal encoding of the
HMAC-SHA-256 digest of the UTF-8 bytes of the canonical string under that
secret, 64 hexadecimal characters long. -/
theorem C9_hash_helpers :
    (∀ tok : String,
      secret_key tok = hmacSha256 (utf8Bytes "WebAppData") (utf8Bytes tok)
      ∧ (secret_key tok).length = 32)
    ∧ (∀ (key : List Nat) (s : String),
      hmac_hash key s = hexOfBytes (hmacSha256 key (utf8Bytes s))
      ∧ (hmac_hash key s).length = 64
      ∧ ∀ c ∈ (hmac_hash key s).data, c ∈ hexChars) := by
  constructor
  · intro tok
    constructor
    · rw [secret_key,
        show utf8Bytes "WebAppData" = [87, 101, 98, 65, 112, 112, 68, 97, 116, 97] from by decide]
    · rw [secret_key, hmacSha256, sha256_length]
  · intro key s
    refine ⟨rfl, hmac_hash_length key s, ?_⟩
    rw [hmac_hash]
    exact hexOfBytes_mem (sha256_lt _)

/-- C10 counterexample: in a payload where the `hash` field appears once
with an empty value and once with a non-empty one, the empty-valued pair is
dropped yet the key is present in the parsed map, so the claim that such a
key is absent from the map fails. -/
theorem C10_counterexample :
    ("hash".data ++ ['='])
        ∈ splitSep '&' "user=u&chat_instance=1&chat_type=p&auth_date=1&hash=&hash=x".data
    ∧ (parsedData "user=u&chat_instance=1&chat_type=p&auth_date=1&hash=&hash=x").lookup "hash"
        = some "x" := by
  decide

/-- C10 amended: an empty-valued pair is always dropped by decoding, and
when a key is produced by no segment at all (in particular when its only
occurrences have empty values), it is absent from the parsed map; the
sample payload whose sole `hash` pair is empty passes the presence
pre-check yet decodes to a map with no `hash` entry. -/
theorem C10_empty_value_dropped (init k : String) (name : List Char)
    (hname : ('=' : Char) ∉ name)
    (hno : ∀ p ∈ parse_qsl init, p.1 ≠ k) :
    pairOf (name ++ ['=']) = none
    ∧ (parsedData init).lookup k = none
    ∧ (presenceOk "user=u&chat_instance=1&chat_type=p&auth_date=1&hash=" = true
       ∧ received_hash? "user=u&chat_instance=1&chat_type=p&auth_date=1&hash=" = none) := by
  refine ⟨?_, ?_, by decide⟩
  · rw [pairOf, if_neg (by simp), splitOnce_sep_free '=' name hname]
    rfl
  · rw [parsedData]
    exact lookup_dictOf_none hno

/-- C10 witness: the empty-valued `hash` pair of the sample payload is
dropped and the key is absent from its parsed map. -/
theorem C10_witness :
    pairOf ("hash".data ++ ['=']) = none
    ∧ (parsedData "user=u&chat_instance=1&chat_type=p&auth_date=1&hash=").lookup "hash" = none
    ∧ (presenceOk "user=u&chat_instance=1&chat_type=p&auth_date=1&hash=" = true
       ∧ received_hash? "user=u&chat_instance=1&chat_type=p&auth_date=1&hash=" = none) :=
  C10_empty_value_dropped "user=u&chat_instance=1&chat_type=p&auth_date=1&hash=" "hash"
    "hash".data (by decide) (by decide)

end TmaValidation
